import Mathlib

/-!
Verification of the bulk-insert builder (`insert.go`, package `bulk`).

The Go source is shallowly embedded.  Go strings become `List Char`; Go
slice expressions `s[i:j]` (which panic when out of range) become
`goSlice`, returning `none` on an out-of-range index; `strings.Repeat`
(which panics on a negative count) becomes `goRepeat`; the database
handle becomes an explicit stateful `Executor` record, and `Insert`
returns the trace of prepare/exec calls it made together with an
`InsertResult` (normal return, returned error, or runtime panic).
-/

set_option maxRecDepth 4000

abbrev Chars := List Char

/-- Go `s[i:j]` on a string or slice: defined (as the slice between the two
indices) exactly when `0 ≤ i ≤ j ≤ len`, a runtime panic (`none`) otherwise. -/
def goSlice (l : List α) (i j : Int) : Option (List α) :=
  if 0 ≤ i ∧ i ≤ j ∧ j ≤ (l.length : Int) then
    some ((l.take j.toNat).drop i.toNat)
  else none

/-- Go `strings.Repeat(s, n)`: `n` copies of `s`, a panic (`none`) when `n < 0`. -/
def goRepeat (s : Chars) (n : Int) : Option Chars :=
  if n < 0 then none else some (List.flatten (List.replicate n.toNat s))

/-- Go `strings.Index(s, sub)`: index of the first occurrence of `sub` in `s`,
`-1` when there is none. -/
def strIndex (s sub : Chars) : Int :=
  match (List.range (s.length + 1)).find? (fun i => sub.isPrefixOf (s.drop i)) with
  | some i => (i : Int)
  | none => -1

/-- Fuel-driven worker for `strSplit` (fuel keeps the recursion structural,
so that terms evaluate by kernel reduction). -/
def strSplitFuel (sep : Chars) : Nat → Chars → Chars → List Chars
  | _, [], acc => [acc.reverse]
  | 0, s, acc => [acc.reverse ++ s]
  | fuel + 1, c :: rest, acc =>
    if sep.isPrefixOf (c :: rest) then
      acc.reverse :: strSplitFuel sep fuel (rest.drop (sep.length - 1)) []
    else
      strSplitFuel sep fuel rest (c :: acc)

/-- Go `strings.Split(s, sep)` for a non-empty separator `sep` (the only way
the source calls it): the substrings of `s` around each non-overlapping
occurrence of `sep`, scanned left to right. -/
def strSplit (s sep : Chars) : List Chars :=
  strSplitFuel sep s.length s []

/-- The source's process-wide placeholder ceiling (`PLACEHOLDER_LIMIT = 60000`). -/
def PLACEHOLDER_LIMIT : Nat := 60000

/-- The `Bulk` struct.  `vals` holds opaque scalars (`interface{}` in Go),
modelled by the type parameter `α`. -/
structure Bulk (α : Type) where
  initStr : Chars
  placeholderStr : Chars
  vals : List α
  rows : Nat
  valuesPerRow : Nat
  placeholderStrHelper : Chars
deriving DecidableEq

/-- The Go zero value of `Bulk` (all strings empty, `nil` slice, zero counters). -/
def Bulk.empty (α : Type) : Bulk α :=
  { initStr := [], placeholderStr := [], vals := [], rows := 0,
    valuesPerRow := 0, placeholderStrHelper := [] }

/-- `(*Bulk).Init(tableName, s...)`.  Builds the statement prefix and the
per-row placeholder group.  `strings.Repeat(",?", valuesPerRow-1)` panics
(`none`) when no column is supplied. -/
def Bulk.Init (b : Bulk α) (tableName : Chars) (cols : List Chars) : Option (Bulk α) :=
  match goRepeat [',', '?'] ((cols.length : Int) - 1) with
  | none => none
  | some rep =>
    some { b with
      initStr := ("INSERT INTO ").toList ++ tableName ++ ['(']
        ++ List.intercalate ((", ").toList) cols ++ (") VALUES ").toList,
      vals := [],
      valuesPerRow := cols.length,
      rows := 0,
      placeholderStrHelper := ['(', '?'] ++ rep ++ [')', ','] }

/-- The error message built by `fmt.Errorf` in `PrepareValues`. -/
def arityErrMsg (inserted required : Nat) : Chars :=
  ("ERROR: Inserted a wrong amount of values: Inserted: ").toList
    ++ (Nat.repr inserted).toList ++ ("  Required: ").toList
    ++ (Nat.repr required).toList ++ (" \n").toList

/-- `(*Bulk).PrepareValues(vals...)`: arity check, then append the values,
one placeholder group, and bump the row counter.  Returns the (possibly
unchanged) builder and the optional error. -/
def Bulk.PrepareValues (b : Bulk α) (vals : List α) : Bulk α × Option Chars :=
  if vals.length ≠ b.valuesPerRow then
    (b, some (arityErrMsg vals.length b.valuesPerRow))
  else
    ({ b with
        placeholderStr := b.placeholderStr ++ b.placeholderStrHelper,
        vals := b.vals ++ vals,
        rows := b.rows + 1 }, none)

/-- The external database collaborator: stateful `prepare` and `exec`
(`db.Prepare` / `stmt.Exec`); the statement handle is identified with its text. -/
structure Executor (α σ : Type) where
  prepare : σ → Chars → σ × Except Chars Unit
  exec : σ → Chars → List α → σ × Except Chars Unit

/-- One observable call made by `Insert` on the database. -/
inductive DbEvent (α : Type) where
  | prep (text : Chars)
  | exec (text : Chars) (vals : List α)
deriving DecidableEq

/-- What a call to `Insert` does overall: returns `nil`, returns an error,
or panics at runtime. -/
inductive InsertResult where
  | ok
  | err (e : Chars)
  | panic
deriving DecidableEq

/-- The `replaceOnDuplicate` clause construction shared by both paths of
`Insert`: re-parse the column substring of `initStr` between the first `(`
and the first `)`, split it on `sep`, and build
` ON DUPLICATE KEY UPDATE col=VALUES(col),...` with the trailing comma
trimmed.  `none` is a panic (ill-formed `initStr`). -/
def upsertClause (initStr sep : Chars) : Option Chars :=
  let firstIndex := strIndex initStr ['(']
  let secondIndex := strIndex initStr [')']
  match goSlice initStr (firstIndex + 1) secondIndex with
  | none => none
  | some columnsStr =>
    let columns := strSplit columnsStr sep
    let endStr := (" ON DUPLICATE KEY UPDATE ").toList
      ++ (columns.map (fun v => v ++ ("=VALUES(").toList ++ v ++ [')', ','])).flatten
    goSlice endStr 0 ((endStr.length : Int) - 1)

/-- Assembly of batch `i` inside the batched loop of `Insert`: slice the
placeholder buffer and the value list (the last batch takes the remainder
to the end), trim the trailing comma, and append the upsert clause built
with separator `", "` when requested.  `none` is a panic. -/
def insertBatchStep (b : Bulk α) (rod : Bool) (rPB cPB batchs i : Nat) :
    Option (Chars × List α) :=
  let strSliceO : Option Chars :=
    if i = batchs - 1 then
      goSlice b.placeholderStr ((cPB * i : Nat) : Int) (b.placeholderStr.length : Int)
    else
      goSlice b.placeholderStr ((cPB * i : Nat) : Int) ((cPB * (i + 1) : Nat) : Int)
  let valSliceO : Option (List α) :=
    if i = batchs - 1 then
      goSlice b.vals ((rPB * b.valuesPerRow * i : Nat) : Int) (b.vals.length : Int)
    else
      goSlice b.vals ((rPB * b.valuesPerRow * i : Nat) : Int)
        ((rPB * b.valuesPerRow * (i + 1) : Nat) : Int)
  match strSliceO, valSliceO with
  | some phSlice, some vs =>
    let str0 := b.initStr ++ phSlice
    match goSlice str0 0 ((str0.length : Int) - 1) with
    | none => none
    | some str1 =>
      if rod then
        match upsertClause b.initStr ((", ").toList) with
        | none => none
        | some clause => some (str1 ++ clause, vs)
      else some (str1, vs)
  | _, _ => none

/-- The `for i := 0; i < batchs; i++` loop of the batched path, counting
down the remaining iterations (`i = batchs - rem`).  Each iteration
assembles batch `i`, prepares it, executes it, and stops at the first
error; an assembly panic aborts everything. -/
def insertLoop (db : Executor α σ) (b : Bulk α) (rod : Bool) (rPB cPB batchs : Nat) :
    σ → Nat → List (DbEvent α) × InsertResult
  | _, 0 => ([], InsertResult.ok)
  | s, rem + 1 =>
    match insertBatchStep b rod rPB cPB batchs (batchs - (rem + 1)) with
    | none => ([], InsertResult.panic)
    | some (str, vs) =>
      match db.prepare s str with
      | (_, Except.error e) => ([DbEvent.prep str], InsertResult.err e)
      | (s1, Except.ok _) =>
        match db.exec s1 str vs with
        | (_, Except.error e) =>
          ([DbEvent.prep str, DbEvent.exec str vs], InsertResult.err e)
        | (s2, Except.ok _) =>
          let r := insertLoop db b rod rPB cPB batchs s2 rem
          (DbEvent.prep str :: DbEvent.exec str vs :: r.1, r.2)

/-- Modelled from the spec: `helper.RoundUp` (external module
`github.com/daniloor/helper`, not part of this repository) rounds the
float quotient up to the next integer; on the natural quotients `Insert`
feeds it this is exact ceiling division, `batchCount =
ceil(totalValueCount / placeholderLimit)`. -/
def ceilDivNat (a m : Nat) : Nat :=
  (a + m - 1) / m

/-- `(*Bulk).Insert(db, replaceOnDuplicate)` with the placeholder ceiling as
an explicit parameter (`Bulk.Insert` fixes it to `PLACEHOLDER_LIMIT`).
Single path when `len(vals) < limit` (note: the upsert clause there splits
the re-parsed column list on `","`); otherwise `batchs = ceil(len(vals)/limit)`
batches of `rowsPerBatch = limit / valuesPerRow` rows each, the last batch
taking the remainder.  `valuesPerRow = 0` hits Go's division by zero. -/
def insertLimit (limit : Nat) (db : Executor α σ) (s0 : σ) (b : Bulk α)
    (replaceOnDuplicate : Bool) : List (DbEvent α) × InsertResult :=
  if b.vals.length < limit then
    match goSlice b.placeholderStr 0 ((b.placeholderStr.length : Int) - 1) with
    | none => ([], InsertResult.panic)
    | some ph =>
      let str0 := b.initStr ++ ph
      match (if replaceOnDuplicate then
          (upsertClause b.initStr [',']).map (fun c => str0 ++ c)
        else some str0) with
      | none => ([], InsertResult.panic)
      | some str =>
        match db.prepare s0 str with
        | (_, Except.error e) => ([DbEvent.prep str], InsertResult.err e)
        | (s1, Except.ok _) =>
          match db.exec s1 str b.vals with
          | (_, Except.error e) =>
            ([DbEvent.prep str, DbEvent.exec str b.vals], InsertResult.err e)
          | (_, Except.ok _) =>
            ([DbEvent.prep str, DbEvent.exec str b.vals], InsertResult.ok)
  else
    if b.valuesPerRow = 0 then ([], InsertResult.panic)
    else
      insertLoop db b replaceOnDuplicate (limit / b.valuesPerRow)
        ((limit / b.valuesPerRow) * (2 * (b.valuesPerRow + 1)))
        (ceilDivNat b.vals.length limit) s0 (ceilDivNat b.vals.length limit)

/-- `(*Bulk).Insert` proper, with the source's `PLACEHOLDER_LIMIT`. -/
def Bulk.Insert (b : Bulk α) (db : Executor α σ) (s0 : σ) (replaceOnDuplicate : Bool) :
    List (DbEvent α) × InsertResult :=
  insertLimit PLACEHOLDER_LIMIT db s0 b replaceOnDuplicate

/-- The executed batches (statement text and bound values) recorded in a trace. -/
def execCalls (tr : List (DbEvent α)) : List (Chars × List α) :=
  tr.filterMap fun e =>
    match e with
    | DbEvent.exec s v => some (s, v)
    | _ => none

/-- An executor whose prepare and exec always succeed (used to observe the
batches `Insert` produces). -/
def okExec (α : Type) : Executor α Unit where
  prepare := fun _ _ => ((), Except.ok ())
  exec := fun _ _ _ => ((), Except.ok ())

/-- Accumulate a sequence of rows with `PrepareValues`, dropping the
per-row error results (rejected rows leave the builder unchanged). -/
def accumSeq (b : Bulk α) : List (List α) → Bulk α
  | [] => b
  | r :: rs => accumSeq (b.PrepareValues r).1 rs

/-! ## Derived descriptions of the batch plan

`planVals`, `planPh`, `planStmt` describe, in `drop`/`take` form, the value
slice, placeholder slice, and assembled statement of batch `i` exactly as
the batched path of `Insert` computes them; the lemmas below prove the
correspondence. -/

/-- Value slice of batch `i`: `s = rowsPerBatch * valuesPerRow` values,
the last batch taking the remainder. -/
def planVals (vals : List α) (s batchs i : Nat) : List α :=
  if i = batchs - 1 then vals.drop (s * i) else (vals.drop (s * i)).take s

/-- Placeholder-text slice of batch `i`: `cPB` characters, the last batch
taking the remainder of the buffer. -/
def planPh (ph : Chars) (cPB batchs i : Nat) : Chars :=
  if i = batchs - 1 then ph.drop (cPB * i) else (ph.drop (cPB * i)).take cPB

/-- Statement text of batch `i`: prefix plus placeholder slice, trailing
comma trimmed, then the (possibly empty) upsert clause. -/
def planStmt (initStr ph : Chars) (cPB batchs : Nat) (cl : Chars) (i : Nat) : Chars :=
  (initStr ++ planPh ph cPB batchs i).dropLast ++ cl

theorem goSlice_eq (l : List α) (a c : Nat) (h1 : a ≤ c) (h2 : c ≤ l.length) :
    goSlice l (a : Int) (c : Int) = some ((l.drop a).take (c - a)) := by
  unfold goSlice
  rw [if_pos ⟨Int.natCast_nonneg a, by exact_mod_cast h1, by exact_mod_cast h2⟩]
  rw [Int.toNat_natCast, Int.toNat_natCast, List.drop_take]

theorem goSlice_toEnd (l : List α) (a : Nat) (h : a ≤ l.length) :
    goSlice l (a : Int) (l.length : Int) = some (l.drop a) := by
  rw [goSlice_eq l a l.length h le_rfl]
  rw [List.take_of_length_le (le_of_eq (List.length_drop a l))]

theorem goSlice_trim (l : List α) (h : l ≠ []) :
    goSlice l 0 ((l.length : Int) - 1) = some l.dropLast := by
  have hl : 1 ≤ l.length := List.length_pos.mpr h
  unfold goSlice
  rw [if_pos ⟨le_rfl, by omega, by omega⟩]
  have ht : ((l.length : Int) - 1).toNat = l.length - 1 := by omega
  rw [ht, Int.toNat_zero, List.drop_zero, ← List.dropLast_eq_take]

theorem ceilDivNat_pos (a m : Nat) (hm : 0 < m) (ha : m ≤ a) : 1 ≤ ceilDivNat a m := by
  unfold ceilDivNat
  rw [Nat.le_div_iff_mul_le hm]
  omega

theorem ceilDivNat_pred_mul_lt (a m : Nat) (hm : 0 < m) (ha : m ≤ a) :
    (ceilDivNat a m - 1) * m < a := by
  unfold ceilDivNat
  have h1 : (a + m - 1) / m * m ≤ a + m - 1 := Nat.div_mul_le_self _ _
  rw [Nat.sub_mul]
  omega

theorem insertBatchStep_spec (b : Bulk α) (rod : Bool) (cl : Chars) (limit rows : Nat)
    (hlim : 1 ≤ limit) (hvpr : 1 ≤ b.valuesPerRow)
    (hV : b.vals.length = rows * b.valuesPerRow)
    (hP : b.placeholderStr.length = rows * (2 * (b.valuesPerRow + 1)))
    (hinit : b.initStr ≠ [])
    (hge : limit ≤ b.vals.length)
    (hup : (if rod then upsertClause b.initStr ((", ").toList) else some []) = some cl)
    (i : Nat) (hi : i < ceilDivNat b.vals.length limit) :
    insertBatchStep b rod (limit / b.valuesPerRow)
        (limit / b.valuesPerRow * (2 * (b.valuesPerRow + 1)))
        (ceilDivNat b.vals.length limit) i
      = some (planStmt b.initStr b.placeholderStr
                (limit / b.valuesPerRow * (2 * (b.valuesPerRow + 1)))
                (ceilDivNat b.vals.length limit) cl i,
              planVals b.vals (limit / b.valuesPerRow * b.valuesPerRow)
                (ceilDivNat b.vals.length limit) i) := by
  have hbpos : 1 ≤ ceilDivNat b.vals.length limit := ceilDivNat_pos _ _ (by omega) hge
  have hkey : (ceilDivNat b.vals.length limit - 1) * limit < b.vals.length :=
    ceilDivNat_pred_mul_lt _ _ (by omega) hge
  have hsle : limit / b.valuesPerRow * b.valuesPerRow ≤ limit :=
    Nat.div_mul_le_self limit b.valuesPerRow
  have hslast : limit / b.valuesPerRow * b.valuesPerRow *
      (ceilDivNat b.vals.length limit - 1) < b.vals.length := by
    calc limit / b.valuesPerRow * b.valuesPerRow * (ceilDivNat b.vals.length limit - 1)
        ≤ limit * (ceilDivNat b.vals.length limit - 1) := Nat.mul_le_mul_right _ hsle
      _ = (ceilDivNat b.vals.length limit - 1) * limit := Nat.mul_comm _ _
      _ < b.vals.length := hkey
  have hrows : limit / b.valuesPerRow * (ceilDivNat b.vals.length limit - 1) < rows := by
    have h1 : limit / b.valuesPerRow * (ceilDivNat b.vals.length limit - 1) * b.valuesPerRow
        < rows * b.valuesPerRow := by
      calc limit / b.valuesPerRow * (ceilDivNat b.vals.length limit - 1) * b.valuesPerRow
          = limit / b.valuesPerRow * b.valuesPerRow * (ceilDivNat b.vals.length limit - 1) := by
            ring
        _ < b.vals.length := hslast
        _ = rows * b.valuesPerRow := hV
    exact Nat.lt_of_mul_lt_mul_right h1
  have hphlast : limit / b.valuesPerRow * (2 * (b.valuesPerRow + 1)) *
      (ceilDivNat b.vals.length limit - 1) ≤ b.placeholderStr.length := by
    rw [hP]
    calc limit / b.valuesPerRow * (2 * (b.valuesPerRow + 1)) *
          (ceilDivNat b.vals.length limit - 1)
        = limit / b.valuesPerRow * (ceilDivNat b.vals.length limit - 1) *
          (2 * (b.valuesPerRow + 1)) := by ring
      _ ≤ rows * (2 * (b.valuesPerRow + 1)) := Nat.mul_le_mul_right _ (le_of_lt hrows)
  by_cases hil : i = ceilDivNat b.vals.length limit - 1
  · subst hil
    have hph := goSlice_toEnd b.placeholderStr
      (limit / b.valuesPerRow * (2 * (b.valuesPerRow + 1)) *
        (ceilDivNat b.vals.length limit - 1)) hphlast
    have hvs := goSlice_toEnd b.vals
      (limit / b.valuesPerRow * b.valuesPerRow * (ceilDivNat b.vals.length limit - 1))
      (le_of_lt hslast)
    have hne : b.initStr ++ b.placeholderStr.drop
        (limit / b.valuesPerRow * (2 * (b.valuesPerRow + 1)) *
          (ceilDivNat b.vals.length limit - 1)) ≠ [] := by
      intro h
      exact hinit (List.append_eq_nil.mp h).1
    have htrim := goSlice_trim _ hne
    cases rod with
    | false =>
      have hcl : cl = [] := by
        simpa using hup
      subst hcl
      simp only [insertBatchStep, eq_self_iff_true, ite_true, hph, hvs, htrim, planStmt,
        planPh, planVals, Bool.false_eq_true, if_false, List.append_nil]
    | true =>
      have hupc : upsertClause b.initStr ((", ").toList) = some cl := by
        simpa using hup
      simp only [insertBatchStep, eq_self_iff_true, ite_true, hph, hvs, htrim, hupc,
        planStmt, planPh, planVals, if_true]
  · have hi1 : i + 1 ≤ ceilDivNat b.vals.length limit - 1 := by omega
    have hsnext : limit / b.valuesPerRow * b.valuesPerRow * (i + 1) ≤ b.vals.length := by
      calc limit / b.valuesPerRow * b.valuesPerRow * (i + 1)
          ≤ limit / b.valuesPerRow * b.valuesPerRow * (ceilDivNat b.vals.length limit - 1) :=
            Nat.mul_le_mul_left _ hi1
        _ ≤ b.vals.length := le_of_lt hslast
    have hphnext : limit / b.valuesPerRow * (2 * (b.valuesPerRow + 1)) * (i + 1)
        ≤ b.placeholderStr.length := by
      calc limit / b.valuesPerRow * (2 * (b.valuesPerRow + 1)) * (i + 1)
          ≤ limit / b.valuesPerRow * (2 * (b.valuesPerRow + 1)) *
            (ceilDivNat b.vals.length limit - 1) := Nat.mul_le_mul_left _ hi1
        _ ≤ b.placeholderStr.length := hphlast
    have hple : limit / b.valuesPerRow * (2 * (b.valuesPerRow + 1)) * i
        ≤ limit / b.valuesPerRow * (2 * (b.valuesPerRow + 1)) * (i + 1) :=
      Nat.mul_le_mul_left _ (by omega)
    have hvle : limit / b.valuesPerRow * b.valuesPerRow * i
        ≤ limit / b.valuesPerRow * b.valuesPerRow * (i + 1) :=
      Nat.mul_le_mul_left _ (by omega)
    have hph := goSlice_eq b.placeholderStr
      (limit / b.valuesPerRow * (2 * (b.valuesPerRow + 1)) * i)
      (limit / b.valuesPerRow * (2 * (b.valuesPerRow + 1)) * (i + 1)) hple hphnext
    have hvs := goSlice_eq b.vals
      (limit / b.valuesPerRow * b.valuesPerRow * i)
      (limit / b.valuesPerRow * b.valuesPerRow * (i + 1)) hvle hsnext
    have hpdiff : limit / b.valuesPerRow * (2 * (b.valuesPerRow + 1)) * (i + 1) -
        limit / b.valuesPerRow * (2 * (b.valuesPerRow + 1)) * i
        = limit / b.valuesPerRow * (2 * (b.valuesPerRow + 1)) := by
      rw [Nat.mul_succ]
      omega
    have hvdiff : limit / b.valuesPerRow * b.valuesPerRow * (i + 1) -
        limit / b.valuesPerRow * b.valuesPerRow * i
        = limit / b.valuesPerRow * b.valuesPerRow := by
      rw [Nat.mul_succ]
      omega
    rw [hpdiff] at hph
    rw [hvdiff] at hvs
    have hne : b.initStr ++ (b.placeholderStr.drop
        (limit / b.valuesPerRow * (2 * (b.valuesPerRow + 1)) * i)).take
          (limit / b.valuesPerRow * (2 * (b.valuesPerRow + 1))) ≠ [] := by
      intro h
      exact hinit (List.append_eq_nil.mp h).1
    have htrim := goSlice_trim _ hne
    cases rod with
    | false =>
      have hcl : cl = [] := by
        simpa using hup
      subst hcl
      simp only [insertBatchStep, if_neg hil, hph, hvs, htrim, planStmt, planPh, planVals,
        Bool.false_eq_true, if_false, List.append_nil]
    | true =>
      have hupc : upsertClause b.initStr ((", ").toList) = some cl := by
        simpa using hup
      simp only [insertBatchStep, if_neg hil, hph, hvs, htrim, hupc, planStmt, planPh,
        planVals, if_true]

theorem insertLoop_okExec_spec (b : Bulk α) (rod : Bool) (rPB cPB batchs : Nat)
    (f : Nat → Chars × List α)
    (hstep : ∀ i, i < batchs → insertBatchStep b rod rPB cPB batchs i = some (f i)) :
    ∀ rem, rem ≤ batchs →
      insertLoop (okExec α) b rod rPB cPB batchs () rem
        = ((((List.range' (batchs - rem) rem).map f).map
              (fun p => [DbEvent.prep p.1, DbEvent.exec p.1 p.2])).flatten,
           InsertResult.ok) := by
  intro rem
  induction rem with
  | zero =>
    intro _
    simp [insertLoop]
  | succ rem ih =>
    intro hrem
    have hi : batchs - (rem + 1) < batchs := by omega
    have hrange : List.range' (batchs - (rem + 1)) (rem + 1)
        = (batchs - (rem + 1)) :: List.range' (batchs - rem) rem := by
      have h1 : batchs - (rem + 1) + 1 = batchs - rem := by omega
      rw [List.range'_succ, h1]
    rw [hrange]
    have ih2 := ih (by omega)
    simp only [okExec] at ih2
    simp only [insertLoop, hstep _ hi, okExec, ih2, List.map_cons,
      List.flatten_cons, List.cons_append, List.nil_append]

theorem execCalls_flatten (l : List (Chars × List α)) :
    execCalls ((l.map (fun p => [DbEvent.prep p.1, DbEvent.exec p.1 p.2])).flatten) = l := by
  induction l with
  | nil => rfl
  | cons x xs ih =>
    simp only [List.map_cons, List.flatten_cons, execCalls, List.filterMap_append] at ih ⊢
    rw [ih]
    rfl

theorem planVals_flatten (s : Nat) :
    ∀ n, 1 ≤ n → ∀ l : List α,
      ((List.range' 0 n).map (planVals l s n)).flatten = l := by
  intro n
  induction n with
  | zero => omega
  | succ n ih =>
    intro _ l
    by_cases hn : n = 0
    · subst hn
      simp [planVals]
    · rw [List.range'_succ]
      have hhead : planVals l s (n + 1) 0 = l.take s := by
        simp only [planVals, Nat.mul_zero, List.drop_zero]
        rw [if_neg (by omega)]
      have htail : (List.range' 1 n).map (planVals l s (n + 1))
          = (List.range' 0 n).map (planVals (l.drop s) s n) := by
        rw [List.range'_eq_map_range 1 n, List.range'_eq_map_range 0 n,
          List.map_map, List.map_map]
        apply List.map_congr_left
        intro j hj
        have hjn : j < n := List.mem_range.mp hj
        simp only [Function.comp_apply]
        by_cases hjl : 1 + j = n
        · simp only [planVals, Nat.add_sub_cancel, if_pos hjl,
            if_pos (show 0 + j = n - 1 by omega), List.drop_drop]
          congr 1
          ring
        · have hjl2 : ¬ 0 + j = n - 1 := by omega
          simp only [planVals, Nat.add_sub_cancel, if_neg hjl, if_neg hjl2,
            List.drop_drop]
          congr 2
          ring
      rw [List.map_cons, hhead, htail, List.flatten_cons, ih (by omega) (l.drop s),
        List.take_append_drop]

theorem insertLimit_multi_ok (b : Bulk α) (rod : Bool) (cl : Chars) (limit rows : Nat)
    (hlim : 1 ≤ limit) (hvpr : 1 ≤ b.valuesPerRow)
    (hV : b.vals.length = rows * b.valuesPerRow)
    (hP : b.placeholderStr.length = rows * (2 * (b.valuesPerRow + 1)))
    (hinit : b.initStr ≠ [])
    (hge : limit ≤ b.vals.length)
    (hup : (if rod then upsertClause b.initStr ((", ").toList) else some []) = some cl) :
    insertLimit limit (okExec α) () b rod
      = ((((List.range' 0 (ceilDivNat b.vals.length limit)).map
            (fun i => (planStmt b.initStr b.placeholderStr
                (limit / b.valuesPerRow * (2 * (b.valuesPerRow + 1)))
                (ceilDivNat b.vals.length limit) cl i,
              planVals b.vals (limit / b.valuesPerRow * b.valuesPerRow)
                (ceilDivNat b.vals.length limit) i))).map
           (fun p => [DbEvent.prep p.1, DbEvent.exec p.1 p.2])).flatten,
         InsertResult.ok) := by
  have hloop := insertLoop_okExec_spec b rod (limit / b.valuesPerRow)
      (limit / b.valuesPerRow * (2 * (b.valuesPerRow + 1)))
      (ceilDivNat b.vals.length limit)
      (fun i => (planStmt b.initStr b.placeholderStr
          (limit / b.valuesPerRow * (2 * (b.valuesPerRow + 1)))
          (ceilDivNat b.vals.length limit) cl i,
        planVals b.vals (limit / b.valuesPerRow * b.valuesPerRow)
          (ceilDivNat b.vals.length limit) i))
      (fun i hi => insertBatchStep_spec b rod cl limit rows hlim hvpr hV hP hinit hge hup i hi)
      (ceilDivNat b.vals.length limit) le_rfl
  rw [Nat.sub_self] at hloop
  rw [insertLimit, if_neg (by omega), if_neg (by omega)]
  exact hloop

theorem insertLimit_single_ok (b : Bulk α) (rod : Bool) (cl : Chars) (limit : Nat)
    (hne : b.placeholderStr ≠ [])
    (hlt : b.vals.length < limit)
    (hup : (if rod then upsertClause b.initStr [','] else some []) = some cl) :
    insertLimit limit (okExec α) () b rod
      = ([DbEvent.prep (b.initStr ++ b.placeholderStr.dropLast ++ cl),
          DbEvent.exec (b.initStr ++ b.placeholderStr.dropLast ++ cl) b.vals],
         InsertResult.ok) := by
  rw [insertLimit, if_pos hlt, goSlice_trim _ hne]
  cases rod with
  | false =>
    have hcl : cl = [] := by simpa using hup
    subst hcl
    simp [okExec]
  | true =>
    have hupc : upsertClause b.initStr [','] = some cl := by simpa using hup
    simp [hupc, okExec]

/-! ## Concrete builders used to instantiate the theorems -/

/-- Table `t`, columns `x`,`y` (the spec scenario). -/
def bulkXY : Bulk Int :=
  ((Bulk.empty Int).Init (("t").toList) [("x").toList, ("y").toList]).getD (Bulk.empty Int)

/-- Four accumulated rows (eight values). -/
def bulkXY4 : Bulk Int := accumSeq bulkXY [[1, 2], [3, 4], [5, 6], [7, 8]]

/-- Five accumulated rows (ten values). -/
def bulkXY5 : Bulk Int := accumSeq bulkXY [[1, 2], [3, 4], [5, 6], [7, 8], [9, 10]]

/-- Table `t`, columns `a`,`b`. -/
def bulkAB : Bulk Int :=
  ((Bulk.empty Int).Init (("t").toList) [("a").toList, ("b").toList]).getD (Bulk.empty Int)

/-- One accumulated row. -/
def bulkAB1 : Bulk Int := accumSeq bulkAB [[1, 2]]

/-- Two accumulated rows. -/
def bulkAB2 : Bulk Int := accumSeq bulkAB [[1, 2], [3, 4]]

/-- Table `t`, single column `a`, no accumulated rows. -/
def bulkA : Bulk Int :=
  ((Bulk.empty Int).Init (("t").toList) [("a").toList]).getD (Bulk.empty Int)

/-- Five accumulated single-value rows. -/
def bulkA5 : Bulk Int := accumSeq bulkA [[10], [20], [30], [40], [50]]

/-- Table `t`, four columns, one accumulated row (four values). -/
def bulkABCD1 : Bulk Int :=
  accumSeq (((Bulk.empty Int).Init (("t").toList)
    [("a").toList, ("b").toList, ("c").toList, ("d").toList]).getD (Bulk.empty Int))
    [[1, 2, 3, 4]]

/-! ## Claims -/

/-- C1: for every builder state with `totalValueCount ≥ placeholderLimit`
(well-formed buffers, at least one value per row, a non-empty prefix, and a
buildable upsert clause when requested), `Insert` produces exactly
`ceil(totalValueCount / placeholderLimit)` batches; the concatenation of
the batches' value slices in batch order is exactly the accumulated value
list (no gaps, overlaps or reordering), and each non-last batch takes
`rowsPerBatch = floor(placeholderLimit / valuesPerRow)` rows, i.e. the
contiguous slice of `rowsPerBatch * valuesPerRow` values starting at its
offset, the last batch taking the remainder. -/
theorem insert_batched_partition {α : Type} (b : Bulk α) (rod : Bool) (cl : Chars)
    (limit rows : Nat)
    (hlim : 1 ≤ limit) (hvpr : 1 ≤ b.valuesPerRow)
    (hV : b.vals.length = rows * b.valuesPerRow)
    (hP : b.placeholderStr.length = rows * (2 * (b.valuesPerRow + 1)))
    (hinit : b.initStr ≠ [])
    (hge : limit ≤ b.vals.length)
    (hup : (if rod then upsertClause b.initStr ((", ").toList) else some []) = some cl) :
    (insertLimit limit (okExec α) () b rod).2 = InsertResult.ok ∧
    (execCalls (insertLimit limit (okExec α) () b rod).1).length
        = ceilDivNat b.vals.length limit ∧
    ((execCalls (insertLimit limit (okExec α) () b rod).1).map Prod.snd).flatten = b.vals ∧
    (∀ i, i + 1 < ceilDivNat b.vals.length limit →
      ((execCalls (insertLimit limit (okExec α) () b rod).1).map Prod.snd)[i]?
        = some ((b.vals.drop (limit / b.valuesPerRow * b.valuesPerRow * i)).take
            (limit / b.valuesPerRow * b.valuesPerRow))) := by
  have hb1 : 1 ≤ ceilDivNat b.vals.length limit := ceilDivNat_pos _ _ (by omega) hge
  have hm := insertLimit_multi_ok b rod cl limit rows hlim hvpr hV hP hinit hge hup
  rw [hm]
  refine ⟨rfl, ?_, ?_, ?_⟩
  · show (execCalls (((List.range' 0 (ceilDivNat b.vals.length limit)).map _).map _).flatten).length = _
    rw [execCalls_flatten, List.length_map, List.length_range']
  · show ((execCalls (((List.range' 0 (ceilDivNat b.vals.length limit)).map _).map _).flatten).map Prod.snd).flatten = _
    rw [execCalls_flatten, List.map_map]
    exact planVals_flatten _ _ hb1 b.vals
  · intro i hi2
    show ((execCalls (((List.range' 0 (ceilDivNat b.vals.length limit)).map _).map _).flatten).map Prod.snd)[i]? = _
    rw [execCalls_flatten, List.map_map, List.getElem?_map,
      List.getElem?_range' 0 1 (by omega)]
    have hir : 0 + 1 * i = i := by omega
    rw [hir]
    simp only [Option.map_some', Function.comp_apply, planVals]
    rw [if_neg (by omega)]

/-- Witness for C1: the spec scenario — columns `x`,`y`, limit 5, four
accumulated rows (eight values) — yields two batches of two rows that
partition the value list. -/
theorem insert_batched_partition_witness :
    5 ≤ bulkXY4.vals.length ∧
    ((insertLimit 5 (okExec Int) () bulkXY4 false).2 = InsertResult.ok ∧
     (execCalls (insertLimit 5 (okExec Int) () bulkXY4 false).1).length
         = ceilDivNat bulkXY4.vals.length 5 ∧
     ((execCalls (insertLimit 5 (okExec Int) () bulkXY4 false).1).map Prod.snd).flatten
         = bulkXY4.vals ∧
     (∀ i, i + 1 < ceilDivNat bulkXY4.vals.length 5 →
       ((execCalls (insertLimit 5 (okExec Int) () bulkXY4 false).1).map Prod.snd)[i]?
         = some ((bulkXY4.vals.drop
               (5 / bulkXY4.valuesPerRow * bulkXY4.valuesPerRow * i)).take
             (5 / bulkXY4.valuesPerRow * bulkXY4.valuesPerRow)))) :=
  ⟨by decide,
   insert_batched_partition bulkXY4 false [] 5 4 (by decide) (by decide) (by decide)
     (by decide) (by decide) (by decide) (by decide)⟩

/-- C2 (the code violates the claim): with limit 5 and five accumulated
two-value rows, `Insert` batches by `batchs = ceil(10/5) = 2` although a
batch can hold only `floor(5/2)*2 = 4` values, so the LAST batch's
statement carries 6 placeholder markers and binds 6 values — above the
limit.  (Same arithmetic at the source's `PLACEHOLDER_LIMIT = 60000` with
7 columns and 60000 rows: the last batch binds 60018 values.) -/
theorem insert_lastBatch_exceeds_limit :
    (insertLimit 5 (okExec Int) () bulkXY5 false).2 = InsertResult.ok ∧
    (execCalls (insertLimit 5 (okExec Int) () bulkXY5 false).1).length = 2 ∧
    ((execCalls (insertLimit 5 (okExec Int) () bulkXY5 false).1).map
        (fun p => p.1.count '?')) = [4, 6] ∧
    ((execCalls (insertLimit 5 (okExec Int) () bulkXY5 false).1).map
        (fun p => p.2.length)) = [4, 6] ∧
    ¬ 6 ≤ 5 := by
  decide

/-- C3 counterexample: the claim quantifies over every builder state with
`totalValueCount < placeholderLimit`, but a freshly initialized builder
(zero accumulated rows, zero values — still below the limit) makes
`Insert` panic on the slice `placeholderStr[0:-1]` and produce no batch,
not one batch. -/
theorem insert_single_empty_cex :
    bulkA.vals.length < PLACEHOLDER_LIMIT ∧
    bulkA.Insert (okExec Int) () false = ([], InsertResult.panic) ∧
    (execCalls (bulkA.Insert (okExec Int) () false).1).length ≠ 1 := by
  decide

/-- C3 amended: for every builder state with a non-empty placeholder
buffer (at least one accumulated row) and `totalValueCount <
placeholderLimit`, `Insert` produces exactly one batch whose statement
text is the prefix followed by the whole accumulated placeholder buffer
(trailing comma trimmed, upsert clause appended when requested) and whose
value list is the entire accumulated value list. -/
theorem insert_single_batch {α : Type} (b : Bulk α) (rod : Bool) (cl : Chars) (limit : Nat)
    (hne : b.placeholderStr ≠ [])
    (hlt : b.vals.length < limit)
    (hup : (if rod then upsertClause b.initStr [','] else some []) = some cl) :
    execCalls (insertLimit limit (okExec α) () b rod).1
      = [(b.initStr ++ b.placeholderStr.dropLast ++ cl, b.vals)] ∧
    (insertLimit limit (okExec α) () b rod).2 = InsertResult.ok := by
  rw [insertLimit_single_ok b rod cl limit hne hlt hup]
  exact ⟨rfl, rfl⟩

/-- Witness for C3 (amended): columns `a`,`b`, one accumulated row, below
the limit — a single batch holding the full buffer and both values. -/
theorem insert_single_batch_witness :
    bulkAB1.placeholderStr ≠ [] ∧ bulkAB1.vals.length < PLACEHOLDER_LIMIT ∧
    (execCalls (insertLimit PLACEHOLDER_LIMIT (okExec Int) () bulkAB1 false).1
        = [(bulkAB1.initStr ++ bulkAB1.placeholderStr.dropLast ++ [], bulkAB1.vals)] ∧
     (insertLimit PLACEHOLDER_LIMIT (okExec Int) () bulkAB1 false).2 = InsertResult.ok) :=
  ⟨by decide, by decide,
   insert_single_batch bulkAB1 false [] PLACEHOLDER_LIMIT (by decide) (by decide) (by decide)⟩

/-- C4: accumulation contract of `PrepareValues`: a row whose length
differs from the configured column count yields exactly the
arity-mismatch message (which embeds both the supplied and the required
counts) and leaves the builder untouched; a row of the right length is
accepted with no error, its values are appended in order, one placeholder
group is appended, and the row counter increases by one (all other fields
unchanged). -/
theorem prepareValues_spec {α : Type} (b : Bulk α) (r : List α) :
    (r.length ≠ b.valuesPerRow →
      b.PrepareValues r = (b, some (arityErrMsg r.length b.valuesPerRow))) ∧
    (r.length = b.valuesPerRow →
      (b.PrepareValues r).2 = none ∧
      (b.PrepareValues r).1.vals = b.vals ++ r ∧
      (b.PrepareValues r).1.placeholderStr = b.placeholderStr ++ b.placeholderStrHelper ∧
      (b.PrepareValues r).1.rows = b.rows + 1 ∧
      (b.PrepareValues r).1.valuesPerRow = b.valuesPerRow ∧
      (b.PrepareValues r).1.initStr = b.initStr ∧
      (b.PrepareValues r).1.placeholderStrHelper = b.placeholderStrHelper) := by
  constructor
  · intro h
    rw [Bulk.PrepareValues, if_pos h]
  · intro h
    rw [Bulk.PrepareValues, if_neg (fun hh => hh h)]
    exact ⟨rfl, rfl, rfl, rfl, rfl, rfl, rfl⟩

/-- Witness for C4: on the two-column builder, a one-value row is rejected
with the message carrying counts 1 and 2 and no mutation; a two-value row
is accepted, appended, and counted. -/
theorem prepareValues_spec_witness :
    bulkAB.PrepareValues [(5 : Int)] = (bulkAB, some (arityErrMsg 1 2)) ∧
    (bulkAB.PrepareValues [(5 : Int), 6]).2 = none ∧
    (bulkAB.PrepareValues [(5 : Int), 6]).1.vals = bulkAB.vals ++ [5, 6] ∧
    (bulkAB.PrepareValues [(5 : Int), 6]).1.rows = bulkAB.rows + 1 :=
  ⟨(prepareValues_spec bulkAB [5]).1 (by decide),
   ((prepareValues_spec bulkAB [5, 6]).2 (by decide)).1,
   ((prepareValues_spec bulkAB [5, 6]).2 (by decide)).2.1,
   ((prepareValues_spec bulkAB [5, 6]).2 (by decide)).2.2.2.1⟩

theorem accumSeq_inv {α : Type} (vpr : Nat) (helper istr : Chars) :
    ∀ (rs : List (List α)) (b : Bulk α),
      b.valuesPerRow = vpr → b.placeholderStrHelper = helper → b.initStr = istr →
      b.vals.length = b.rows * vpr →
      b.placeholderStr = (List.replicate b.rows helper).flatten →
      (accumSeq b rs).valuesPerRow = vpr ∧
      (accumSeq b rs).placeholderStrHelper = helper ∧
      (accumSeq b rs).initStr = istr ∧
      (accumSeq b rs).rows = b.rows + rs.countP (fun r => r.length == vpr) ∧
      (accumSeq b rs).vals.length = (accumSeq b rs).rows * vpr ∧
      (accumSeq b rs).placeholderStr
        = (List.replicate (accumSeq b rs).rows helper).flatten := by
  intro rs
  induction rs with
  | nil =>
    intro b h1 h2 h3 h4 h5
    exact ⟨h1, h2, h3, by simp [accumSeq], h4, h5⟩
  | cons r rs ih =>
    intro b h1 h2 h3 h4 h5
    by_cases hr : r.length = b.valuesPerRow
    · have hstep : (b.PrepareValues r).1
          = { b with placeholderStr := b.placeholderStr ++ b.placeholderStrHelper,
                     vals := b.vals ++ r, rows := b.rows + 1 } := by
        rw [Bulk.PrepareValues, if_neg (fun hh => hh hr)]
      have hcnt : (r :: rs).countP (fun r => r.length == vpr)
          = rs.countP (fun r => r.length == vpr) + 1 := by
        rw [List.countP_cons_of_pos]
        rw [← h1] at *
        simp [hr]
      have := ih (b.PrepareValues r).1
        (by rw [hstep]; exact h1) (by rw [hstep]; exact h2) (by rw [hstep]; exact h3)
        (by rw [hstep]
            show (b.vals ++ r).length = (b.rows + 1) * vpr
            rw [List.length_append, h4, hr, h1]
            ring)
        (by rw [hstep]
            show b.placeholderStr ++ b.placeholderStrHelper
              = (List.replicate (b.rows + 1) helper).flatten
            rw [h5, h2, List.replicate_succ']
            simp)
      rw [accumSeq]
      refine ⟨this.1, this.2.1, this.2.2.1, ?_, this.2.2.2.2.1, this.2.2.2.2.2⟩
      rw [this.2.2.2.1, hstep, hcnt]
      show b.rows + 1 + List.countP (fun r => r.length == vpr) rs
        = b.rows + (List.countP (fun r => r.length == vpr) rs + 1)
      omega
    · have hstep : (b.PrepareValues r).1 = b := by
        rw [Bulk.PrepareValues, if_pos hr]
      have hcnt : (r :: rs).countP (fun r => r.length == vpr)
          = rs.countP (fun r => r.length == vpr) := by
        rw [List.countP_cons_of_neg]
        rw [← h1] at *
        simp [hr]
      have := ih (b.PrepareValues r).1
        (by rw [hstep]; exact h1) (by rw [hstep]; exact h2) (by rw [hstep]; exact h3)
        (by rw [hstep]; exact h4) (by rw [hstep]; exact h5)
      rw [accumSeq]
      refine ⟨this.1, this.2.1, this.2.2.1, ?_, this.2.2.2.2.1, this.2.2.2.2.2⟩
      rw [this.2.2.2.1, hstep, hcnt]

/-- C5: starting from a freshly initialized builder, after any sequence of
accumulation attempts of which N succeed (correct arity; rejected rows
change nothing), the builder has `rowCount = N`,
`len(values) = N * columnsPerRow`, and a placeholder buffer that is
exactly N copies of the per-row placeholder group. -/
theorem accum_invariant {α : Type} (t : Chars) (cols : List Chars) (b0 : Bulk α)
    (rs : List (List α))
    (hinit : (Bulk.empty α).Init t cols = some b0) :
    (accumSeq b0 rs).rows = rs.countP (fun r => r.length == cols.length) ∧
    (accumSeq b0 rs).vals.length = (accumSeq b0 rs).rows * cols.length ∧
    (accumSeq b0 rs).placeholderStr
      = (List.replicate (accumSeq b0 rs).rows b0.placeholderStrHelper).flatten := by
  have hb0 : b0.valuesPerRow = cols.length ∧ b0.rows = 0 ∧ b0.vals = ([] : List α) ∧
      b0.placeholderStr = [] := by
    cases hrep : goRepeat [',', '?'] ((cols.length : Int) - 1) with
    | none =>
      rw [Bulk.Init, hrep] at hinit
      cases hinit
    | some rep =>
      rw [Bulk.Init, hrep] at hinit
      simp only [Option.some.injEq] at hinit
      subst hinit
      exact ⟨rfl, rfl, rfl, rfl⟩
  have h := accumSeq_inv cols.length b0.placeholderStrHelper b0.initStr rs b0
    hb0.1 rfl rfl (by rw [hb0.2.2.1, hb0.2.1]; simp) (by rw [hb0.2.2.2, hb0.2.1]; simp)
  refine ⟨?_, h.2.2.2.2.1, h.2.2.2.2.2⟩
  rw [h.2.2.2.1, hb0.2.1]
  omega

/-- Witness for C5: columns `a`,`b` and three attempted rows of which the
middle one has wrong arity — two successes, four values, two groups. -/
theorem accum_invariant_witness :
    (Bulk.empty Int).Init (("t").toList) [("a").toList, ("b").toList] = some bulkAB ∧
    ((accumSeq bulkAB [[1, 2], [3], [4, 5]]).rows
        = [[(1 : Int), 2], [3], [4, 5]].countP
            (fun r => r.length == [("a").toList, ("b").toList].length) ∧
     (accumSeq bulkAB [[1, 2], [3], [4, 5]]).vals.length
        = (accumSeq bulkAB [[1, 2], [3], [4, 5]]).rows
            * [("a").toList, ("b").toList].length ∧
     (accumSeq bulkAB [[1, 2], [3], [4, 5]]).placeholderStr
        = (List.replicate (accumSeq bulkAB [[1, 2], [3], [4, 5]]).rows
            bulkAB.placeholderStrHelper).flatten) :=
  ⟨by decide,
   accum_invariant (("t").toList) [("a").toList, ("b").toList] bulkAB
     [[1, 2], [3], [4, 5]] (by decide)⟩

/-- C6 counterexample: columns `a`,`b`, one accumulated row, upsert
requested.  The single-batch path of `Insert` (which splits the re-parsed
column list `a, b` on `","`) appends
` ON DUPLICATE KEY UPDATE a=VALUES(a), b=VALUES( b)` — the second column
name carries a leading space — so the executed statement does NOT end
with the claimed clause `a=VALUES(a),b=VALUES(b)`. -/
theorem upsert_clause_single_cex :
    execCalls (bulkAB1.Insert (okExec Int) () true).1
      = [((("INSERT INTO t(a, b) VALUES (?,?)"
            ++ " ON DUPLICATE KEY UPDATE a=VALUES(a), b=VALUES( b)").toList),
          [1, 2])] ∧
    ¬ ((" ON DUPLICATE KEY UPDATE a=VALUES(a),b=VALUES(b)").toList
        <:+ (("INSERT INTO t(a, b) VALUES (?,?)"
            ++ " ON DUPLICATE KEY UPDATE a=VALUES(a), b=VALUES( b)").toList)) := by
  decide

/-- C6 amended: for every builder whose prefix was built from table `t`
and columns `a`,`b`, with upsert requested: in the batched path every
executed statement ends with exactly
` ON DUPLICATE KEY UPDATE a=VALUES(a),b=VALUES(b)` (one `col=VALUES(col)`
term per column, comma-joined, no trailing separator), but in the
single-batch path the appended clause is
` ON DUPLICATE KEY UPDATE a=VALUES(a), b=VALUES( b)` — the `","` split
leaves a leading space in the second column name. -/
theorem upsert_clause_paths {α : Type} (b : Bulk α) (limit rows : Nat)
    (hinit : b.initStr = ("INSERT INTO t(a, b) VALUES ").toList)
    (hvpr : b.valuesPerRow = 2)
    (hV : b.vals.length = rows * 2)
    (hP : b.placeholderStr.length = rows * 6)
    (hlim : 1 ≤ limit) :
    (b.placeholderStr ≠ [] → b.vals.length < limit →
      execCalls (insertLimit limit (okExec α) () b true).1
        = [(b.initStr ++ b.placeholderStr.dropLast
              ++ (" ON DUPLICATE KEY UPDATE a=VALUES(a), b=VALUES( b)").toList, b.vals)]) ∧
    (limit ≤ b.vals.length →
      ∀ p ∈ execCalls (insertLimit limit (okExec α) () b true).1,
        (" ON DUPLICATE KEY UPDATE a=VALUES(a),b=VALUES(b)").toList <:+ p.1) := by
  constructor
  · intro hne hlt
    rw [insertLimit_single_ok b true
      ((" ON DUPLICATE KEY UPDATE a=VALUES(a), b=VALUES( b)").toList) limit hne hlt
      (by rw [hinit]; decide)]
    rfl
  · intro hge p hp
    have hm := insertLimit_multi_ok b true
      ((" ON DUPLICATE KEY UPDATE a=VALUES(a),b=VALUES(b)").toList) limit rows hlim
      (by omega) (by rw [hvpr]; exact hV) (by rw [hvpr]; exact hP)
      (by rw [hinit]; decide) hge (by rw [hinit]; decide)
    rw [hm] at hp
    simp only [execCalls_flatten] at hp
    obtain ⟨i, hi, rfl⟩ := List.mem_map.mp hp
    simp only [planStmt]
    exact List.suffix_append _ _

/-- Witness for C6 (amended): one accumulated row, real limit — the
single-batch branch applies and shows the garbled clause. -/
theorem upsert_clause_paths_witness :
    bulkAB1.initStr = ("INSERT INTO t(a, b) VALUES ").toList ∧
    bulkAB1.valuesPerRow = 2 ∧
    ((bulkAB1.placeholderStr ≠ [] → bulkAB1.vals.length < PLACEHOLDER_LIMIT →
      execCalls (insertLimit PLACEHOLDER_LIMIT (okExec Int) () bulkAB1 true).1
        = [(bulkAB1.initStr ++ bulkAB1.placeholderStr.dropLast
              ++ (" ON DUPLICATE KEY UPDATE a=VALUES(a), b=VALUES( b)").toList,
            bulkAB1.vals)]) ∧
    (PLACEHOLDER_LIMIT ≤ bulkAB1.vals.length →
      ∀ p ∈ execCalls (insertLimit PLACEHOLDER_LIMIT (okExec Int) () bulkAB1 true).1,
        (" ON DUPLICATE KEY UPDATE a=VALUES(a),b=VALUES(b)").toList <:+ p.1)) :=
  ⟨by decide, by decide,
   upsert_clause_paths bulkAB1 PLACEHOLDER_LIMIT 1 (by decide) (by decide) (by decide)
     (by decide) (by decide)⟩

/-- C7 counterexample: the claim asserts the non-batched path splits the
re-parsed column substring on `", "` (which would give clean names) and
the batched path on `","`; on columns `a`,`b` the code does the opposite:
the single-batch statement carries the `","`-split clause (second name
` b` with a leading space) and the batched statement (two rows, limit 4)
carries the `", "`-split clause with clean names. -/
theorem upsert_separator_cex :
    execCalls (bulkAB1.Insert (okExec Int) () true).1
      = [((("INSERT INTO t(a, b) VALUES (?,?)"
            ++ " ON DUPLICATE KEY UPDATE a=VALUES(a), b=VALUES( b)").toList), [1, 2])] ∧
    execCalls (insertLimit 4 (okExec Int) () bulkAB2 true).1
      = [((("INSERT INTO t(a, b) VALUES (?,?),(?,?)"
            ++ " ON DUPLICATE KEY UPDATE a=VALUES(a),b=VALUES(b)").toList),
          [1, 2, 3, 4])] ∧
    (("INSERT INTO t(a, b) VALUES (?,?)"
        ++ " ON DUPLICATE KEY UPDATE a=VALUES(a), b=VALUES( b)").toList
      ≠ ("INSERT INTO t(a, b) VALUES (?,?)"
        ++ " ON DUPLICATE KEY UPDATE a=VALUES(a),b=VALUES(b)").toList) ∧
    (("INSERT INTO t(a, b) VALUES (?,?),(?,?)"
        ++ " ON DUPLICATE KEY UPDATE a=VALUES(a),b=VALUES(b)").toList
      ≠ ("INSERT INTO t(a, b) VALUES (?,?),(?,?)"
        ++ " ON DUPLICATE KEY UPDATE a=VALUES(a), b=VALUES( b)").toList) := by
  decide

/-- C7 amended: the separators are the other way round from the claim: the
NON-batched path splits on `","` while the batched path splits on `", "`
(matching how the prefix was built); on the prefix for columns `a`,`b` the
`","` split yields the token ` b` with a leading space, the `", "` split
yields clean names, and the two `Insert` paths produce exactly those
clauses. -/
theorem upsert_separator_swapped :
    strSplit (("a, b").toList) [','] = [("a").toList, (" b").toList] ∧
    strSplit (("a, b").toList) ((", ").toList) = [("a").toList, ("b").toList] ∧
    upsertClause (("INSERT INTO t(a, b) VALUES ").toList) [',']
      = some ((" ON DUPLICATE KEY UPDATE a=VALUES(a), b=VALUES( b)").toList) ∧
    upsertClause (("INSERT INTO t(a, b) VALUES ").toList) ((", ").toList)
      = some ((" ON DUPLICATE KEY UPDATE a=VALUES(a),b=VALUES(b)").toList) ∧
    execCalls (bulkAB1.Insert (okExec Int) () true).1
      = [((("INSERT INTO t(a, b) VALUES (?,?)"
            ++ " ON DUPLICATE KEY UPDATE a=VALUES(a), b=VALUES( b)").toList), [1, 2])] ∧
    execCalls (insertLimit 4 (okExec Int) () bulkAB2 true).1
      = [((("INSERT INTO t(a, b) VALUES (?,?),(?,?)"
            ++ " ON DUPLICATE KEY UPDATE a=VALUES(a),b=VALUES(b)").toList),
          [1, 2, 3, 4])] := by
  decide

/-- An unreachable-by-API state with `valuesPerRow = 0` but a non-empty
value list, used to exhibit the division-by-zero panic branch. -/
def bulkZeroVpr : Bulk Int :=
  { initStr := ("INSERT INTO t() VALUES ").toList, placeholderStr := [],
    vals := [1, 2, 3], rows := 0, valuesPerRow := 0, placeholderStrHelper := [] }

/-- C8 counterexample: columns `a`,`b`,`c`,`d` (4 values per row), limit 3
— no single row fits in one batch (`rowsPerBatch = floor(3/4) = 0`) — yet
`Insert` reports no error of any kind before batching: it runs to
completion returning `nil` and does call prepare/execute on the database
(the claim says a ConfigurationError is reported and no prepare or
execute call is made). -/
theorem config_error_cex :
    3 ≤ bulkABCD1.vals.length ∧
    3 < bulkABCD1.valuesPerRow ∧
    (insertLimit 3 (okExec Int) () bulkABCD1 false).2 = InsertResult.ok ∧
    (insertLimit 3 (okExec Int) () bulkABCD1 false).1 ≠ [] := by
  decide

/-- C8 amended: `Insert` performs no configuration validation at all.
With `valuesPerRow = 0` and at least `limit` accumulated values the
batched path hits Go's integer division by zero (a runtime panic, not a
reported error); with `1 ≤ valuesPerRow` — however large, even exceeding
the limit so that `rowsPerBatch = 0` — it detects nothing, returns `nil`,
and prepares and executes batches. -/
theorem insert_no_config_check {α : Type} (b : Bulk α) (rod : Bool) (cl : Chars)
    (limit rows : Nat) :
    (b.valuesPerRow = 0 → limit ≤ b.vals.length →
      ∀ (σ : Type) (db : Executor α σ) (s0 : σ),
        insertLimit limit db s0 b rod = ([], InsertResult.panic)) ∧
    (1 ≤ b.valuesPerRow → 1 ≤ limit →
      b.vals.length = rows * b.valuesPerRow →
      b.placeholderStr.length = rows * (2 * (b.valuesPerRow + 1)) →
      b.initStr ≠ [] →
      limit ≤ b.vals.length →
      (if rod then upsertClause b.initStr ((", ").toList) else some []) = some cl →
      (insertLimit limit (okExec α) () b rod).2 = InsertResult.ok ∧
      (insertLimit limit (okExec α) () b rod).1 ≠ []) := by
  constructor
  · intro hz hge σ db s0
    rw [insertLimit, if_neg (by omega), if_pos hz]
  · intro hvpr hlim hV hP hinit hge hup
    have hb1 : 1 ≤ ceilDivNat b.vals.length limit := ceilDivNat_pos _ _ (by omega) hge
    have hm := insertLimit_multi_ok b rod cl limit rows hlim hvpr hV hP hinit hge hup
    have hrange : List.range' 0 (ceilDivNat b.vals.length limit)
        = 0 :: List.range' 1 (ceilDivNat b.vals.length limit - 1) := by
      have h2 : ceilDivNat b.vals.length limit
          = (ceilDivNat b.vals.length limit - 1) + 1 := by omega
      rw [h2, List.range'_succ]
      rw [← h2]
    rw [hm, hrange]
    exact ⟨rfl, by simp⟩

/-- Witness for C8 (amended): the `rowsPerBatch = 0` configuration passes
through with executor calls made, and the `valuesPerRow = 0` configuration
panics — neither is detected and reported as an error. -/
theorem insert_no_config_check_witness :
    1 ≤ bulkABCD1.valuesPerRow ∧
    ((insertLimit 3 (okExec Int) () bulkABCD1 false).2 = InsertResult.ok ∧
     (insertLimit 3 (okExec Int) () bulkABCD1 false).1 ≠ []) ∧
    insertLimit 2 (okExec Int) () bulkZeroVpr false = ([], InsertResult.panic) :=
  ⟨by decide,
   (insert_no_config_check bulkABCD1 false [] 3 1).2 (by decide) (by decide) (by decide)
     (by decide) (by decide) (by decide) (by decide),
   (insert_no_config_check bulkZeroVpr false [] 2 0).1 (by decide) (by decide)
     Unit (okExec Int) ()⟩

theorem insertLoop_succ (db : Executor α σ) (b : Bulk α) (rod : Bool)
    (rPB cPB batchs : Nat) (s : σ) (rem : Nat) :
    insertLoop db b rod rPB cPB batchs s (rem + 1)
      = match insertBatchStep b rod rPB cPB batchs (batchs - (rem + 1)) with
        | none => ([], InsertResult.panic)
        | some (str, vs) =>
          match db.prepare s str with
          | (_, Except.error e) => ([DbEvent.prep str], InsertResult.err e)
          | (s1, Except.ok _) =>
            match db.exec s1 str vs with
            | (_, Except.error e) =>
              ([DbEvent.prep str, DbEvent.exec str vs], InsertResult.err e)
            | (s2, Except.ok _) =>
              let r := insertLoop db b rod rPB cPB batchs s2 rem
              (DbEvent.prep str :: DbEvent.exec str vs :: r.1, r.2) := rfl

/-- A run of the external executor that prepares and executes each listed
batch successfully, threading the executor state from `s` to the final
state. -/
inductive RunOk {α σ : Type} (db : Executor α σ) : σ → List (Chars × List α) → σ → Prop
  | nil (s : σ) : RunOk db s [] s
  | cons (s s1 s2 sk : σ) (p : Chars × List α) (rest : List (Chars × List α))
      (hp : db.prepare s p.1 = (s1, Except.ok ()))
      (he : db.exec s1 p.1 p.2 = (s2, Except.ok ()))
      (hr : RunOk db s2 rest sk) : RunOk db s (p :: rest) sk

/-- Batch `i` of the batched path (statement text and value slice), in the
`drop`/`take` form established by `insertBatchStep_spec`. -/
def planBatch (b : Bulk α) (cl : Chars) (limit : Nat) (i : Nat) : Chars × List α :=
  (planStmt b.initStr b.placeholderStr
      (limit / b.valuesPerRow * (2 * (b.valuesPerRow + 1)))
      (ceilDivNat b.vals.length limit) cl i,
   planVals b.vals (limit / b.valuesPerRow * b.valuesPerRow)
      (ceilDivNat b.vals.length limit) i)

theorem insertLoop_abort {α σ : Type} (db : Executor α σ) (b : Bulk α) (rod : Bool)
    (rPB cPB batchs : Nat) (plan : Nat → Chars × List α)
    (hstep : ∀ i, i < batchs → insertBatchStep b rod rPB cPB batchs i = some (plan i)) :
    ∀ (k rem : Nat) (s sk : σ),
      rem ≤ batchs → k < rem →
      RunOk db s ((List.range' (batchs - rem) k).map plan) sk →
      ((∀ s1 e, db.prepare sk (plan (batchs - rem + k)).1 = (s1, Except.error e) →
        insertLoop db b rod rPB cPB batchs s rem
          = ((((List.range' (batchs - rem) k).map plan).map
                (fun p => [DbEvent.prep p.1, DbEvent.exec p.1 p.2])).flatten
               ++ [DbEvent.prep (plan (batchs - rem + k)).1],
             InsertResult.err e)) ∧
       (∀ s1 s2 e, db.prepare sk (plan (batchs - rem + k)).1 = (s1, Except.ok ()) →
          db.exec s1 (plan (batchs - rem + k)).1 (plan (batchs - rem + k)).2
            = (s2, Except.error e) →
        insertLoop db b rod rPB cPB batchs s rem
          = ((((List.range' (batchs - rem) k).map plan).map
                (fun p => [DbEvent.prep p.1, DbEvent.exec p.1 p.2])).flatten
               ++ [DbEvent.prep (plan (batchs - rem + k)).1,
                   DbEvent.exec (plan (batchs - rem + k)).1 (plan (batchs - rem + k)).2],
             InsertResult.err e))) := by
  intro k
  induction k with
  | zero =>
    intro rem s sk hrem hk hrun
    cases rem with
    | zero => omega
    | succ rem1 =>
      cases hrun with
      | nil =>
        constructor
        · intro s1 e hpf
          rw [insertLoop_succ, hstep _ (by omega)]
          simp only [Nat.add_zero] at hpf
          simp only [hpf, Nat.add_zero, List.range'_zero, List.map_nil,
            List.flatten_nil, List.nil_append]
        · intro s1 s2 e hpo hef
          rw [insertLoop_succ, hstep _ (by omega)]
          simp only [Nat.add_zero] at hpo hef
          simp only [hpo, hef, Nat.add_zero, List.range'_zero, List.map_nil,
            List.flatten_nil, List.nil_append]
  | succ k ih =>
    intro rem s sk hrem hk hrun
    cases rem with
    | zero => omega
    | succ rem1 =>
      rw [List.range'_succ, List.map_cons] at hrun
      cases hrun with
      | cons sx s1 s2 skx p rest hp he hr =>
        have hj1 : batchs - (rem1 + 1) + 1 = batchs - rem1 := by omega
        rw [hj1] at hr
        have hidx : batchs - (rem1 + 1) + (k + 1) = batchs - rem1 + k := by omega
        have hih := ih rem1 s2 sk (by omega) (by omega) hr
        constructor
        · intro s3 e hpf
          rw [hidx] at hpf
          have hres := hih.1 s3 e hpf
          rw [insertLoop_succ, hstep _ (by omega)]
          simp only [hp, he, hres, hidx, hj1, List.range'_succ, List.map_cons,
            List.flatten_cons, List.cons_append, List.append_assoc, List.nil_append]
        · intro s3 s4 e hpo hef
          rw [hidx] at hpo hef
          have hres := hih.2 s3 s4 e hpo hef
          rw [insertLoop_succ, hstep _ (by omega)]
          simp only [hp, he, hres, hidx, hj1, List.range'_succ, List.map_cons,
            List.flatten_cons, List.cons_append, List.append_assoc, List.nil_append]

/-- A stateful executor that succeeds everywhere except on its second
prepare call, which fails with `msg` (the state counts prepare calls). -/
def failSecondPrepare (α : Type) (msg : Chars) : Executor α Nat where
  prepare := fun s _ => (s + 1, if s + 1 = 2 then Except.error msg else Except.ok ())
  exec := fun s _ _ => (s, Except.ok ())

/-- A stateful executor whose first exec call fails with `msg` (the state
counts exec calls); prepare always succeeds. -/
def failFirstExec (α : Type) (msg : Chars) : Executor α Nat where
  prepare := fun s _ => (s, Except.ok ())
  exec := fun s _ _ => (s + 1, if s + 1 = 1 then Except.error msg else Except.ok ())

/-- C9: for every multi-batch execution (well-formed builder, any batch
count, any executor) and every batch index k: if batches 0..k-1 prepare
and execute successfully and the executor then fails batch k — whether at
its prepare or at its execute — `Insert` returns that error to the caller
immediately; the call trace is exactly the prepare+execute pairs of the
batches before k followed by the failed call(s) on batch k, so no batch
after k is assembled, prepared, or executed, and the batches already
executed are not undone (no retry, no rollback: the trace ends at the
failure). -/
theorem insert_abort_on_failure {α σ : Type} (b : Bulk α) (rod : Bool) (cl : Chars)
    (limit rows k : Nat) (db : Executor α σ) (s0 sk : σ)
    (hlim : 1 ≤ limit) (hvpr : 1 ≤ b.valuesPerRow)
    (hV : b.vals.length = rows * b.valuesPerRow)
    (hP : b.placeholderStr.length = rows * (2 * (b.valuesPerRow + 1)))
    (hinit : b.initStr ≠ [])
    (hge : limit ≤ b.vals.length)
    (hup : (if rod then upsertClause b.initStr ((", ").toList) else some []) = some cl)
    (hk : k < ceilDivNat b.vals.length limit)
    (hrun : RunOk db s0 ((List.range k).map (planBatch b cl limit)) sk) :
    (∀ s1 e, db.prepare sk (planBatch b cl limit k).1 = (s1, Except.error e) →
      insertLimit limit db s0 b rod
        = ((((List.range k).map (planBatch b cl limit)).map
              (fun p => [DbEvent.prep p.1, DbEvent.exec p.1 p.2])).flatten
             ++ [DbEvent.prep (planBatch b cl limit k).1],
           InsertResult.err e)) ∧
    (∀ s1 s2 e, db.prepare sk (planBatch b cl limit k).1 = (s1, Except.ok ()) →
      db.exec s1 (planBatch b cl limit k).1 (planBatch b cl limit k).2
        = (s2, Except.error e) →
      insertLimit limit db s0 b rod
        = ((((List.range k).map (planBatch b cl limit)).map
              (fun p => [DbEvent.prep p.1, DbEvent.exec p.1 p.2])).flatten
             ++ [DbEvent.prep (planBatch b cl limit k).1,
                 DbEvent.exec (planBatch b cl limit k).1 (planBatch b cl limit k).2],
           InsertResult.err e)) := by
  have hstep : ∀ i, i < ceilDivNat b.vals.length limit →
      insertBatchStep b rod (limit / b.valuesPerRow)
        (limit / b.valuesPerRow * (2 * (b.valuesPerRow + 1)))
        (ceilDivNat b.vals.length limit) i = some (planBatch b cl limit i) :=
    fun i hi => insertBatchStep_spec b rod cl limit rows hlim hvpr hV hP hinit hge hup i hi
  have hbb : ceilDivNat b.vals.length limit - ceilDivNat b.vals.length limit = 0 :=
    Nat.sub_self _
  have hrun2 : RunOk db s0
      ((List.range' (ceilDivNat b.vals.length limit - ceilDivNat b.vals.length limit)
          k).map (planBatch b cl limit)) sk := by
    rw [hbb, ← List.range_eq_range']
    exact hrun
  have h := insertLoop_abort db b rod (limit / b.valuesPerRow)
      (limit / b.valuesPerRow * (2 * (b.valuesPerRow + 1)))
      (ceilDivNat b.vals.length limit) (planBatch b cl limit) hstep
      k (ceilDivNat b.vals.length limit) s0 sk le_rfl hk hrun2
  rw [hbb, Nat.zero_add, ← List.range_eq_range'] at h
  constructor
  · intro s1 e hpf
    rw [insertLimit, if_neg (by omega), if_neg (by omega)]
    exact h.1 s1 e hpf
  · intro s1 s2 e hpo hef
    rw [insertLimit, if_neg (by omega), if_neg (by omega)]
    exact h.2 s1 s2 e hpo hef

/-- Witness for C9: single column `a`, five rows, limit 2 — three batches.
An executor failing its second prepare (batch index 1) leaves batch 0
executed, the trace ending at batch 1 failed prepare, batch 2 untouched;
an executor failing its first execute (batch index 0) leaves only that
batch prepare and failed execute in the trace. -/
theorem insert_abort_on_failure_witness :
    ceilDivNat bulkA5.vals.length 2 = 3 ∧
    planBatch bulkA5 [] 2 0 = ((("INSERT INTO t(a) VALUES (?),(?)").toList), [10, 20]) ∧
    planBatch bulkA5 [] 2 1 = ((("INSERT INTO t(a) VALUES (?),(?)").toList), [30, 40]) ∧
    insertLimit 2 (failSecondPrepare Int (("boom").toList)) 0 bulkA5 false
      = ([DbEvent.prep (("INSERT INTO t(a) VALUES (?),(?)").toList),
          DbEvent.exec (("INSERT INTO t(a) VALUES (?),(?)").toList) [10, 20],
          DbEvent.prep (("INSERT INTO t(a) VALUES (?),(?)").toList)],
         InsertResult.err (("boom").toList)) ∧
    insertLimit 2 (failFirstExec Int (("crash").toList)) 0 bulkA5 false
      = ([DbEvent.prep (("INSERT INTO t(a) VALUES (?),(?)").toList),
          DbEvent.exec (("INSERT INTO t(a) VALUES (?),(?)").toList) [10, 20]],
         InsertResult.err (("crash").toList)) := by
  refine ⟨by decide, by decide, by decide, ?_, ?_⟩
  · exact (insert_abort_on_failure bulkA5 false [] 2 5 1
      (failSecondPrepare Int (("boom").toList)) 0 1
      (by decide) (by decide) (by decide) (by decide) (by decide) (by decide)
      (by decide) (by decide)
      (RunOk.cons 0 1 1 1 (planBatch bulkA5 [] 2 0) [] rfl rfl (RunOk.nil 1))).1
      2 (("boom").toList) rfl
  · exact (insert_abort_on_failure bulkA5 false [] 2 5 0
      (failFirstExec Int (("crash").toList)) 0 0
      (by decide) (by decide) (by decide) (by decide) (by decide) (by decide)
      (by decide) (by decide)
      (RunOk.nil 0)).2 0 1 (("crash").toList) rfl rfl

/-- C10: under the buffer-length invariant, the trailing-comma trim
`placeholderStr[0 : len(placeholderStr)-1]` is an in-range slice exactly
when at least one row has been accumulated; with zero rows the buffer is
empty, the upper index is `-1`, the slice is out of range, and `Insert`
— which has no guard for the empty case — panics instead of returning. -/
theorem insert_empty_buffer_guard {α σ : Type} (b : Bulk α) (limit : Nat)
    (db : Executor α σ) (s0 : σ) (rod : Bool)
    (hP : b.placeholderStr.length = b.rows * (2 * (b.valuesPerRow + 1)))
    (hlt : b.vals.length < limit) :
    ((goSlice b.placeholderStr 0 ((b.placeholderStr.length : Int) - 1)).isSome
        ↔ 1 ≤ b.rows) ∧
    (b.rows = 0 → insertLimit limit db s0 b rod = ([], InsertResult.panic)) := by
  constructor
  · constructor
    · intro hs
      by_contra h0
      have hz : b.rows = 0 := by omega
      have hlen : b.placeholderStr.length = 0 := by
        rw [hP, hz, Nat.zero_mul]
      have hnil : b.placeholderStr = [] := List.eq_nil_of_length_eq_zero hlen
      rw [hnil] at hs
      simp [goSlice] at hs
    · intro h1
      have hlen : 1 ≤ b.placeholderStr.length := by
        rw [hP]
        have h2 : 1 * 1 ≤ b.rows * (2 * (b.valuesPerRow + 1)) :=
          Nat.mul_le_mul h1 (by omega)
        omega
      have hne : b.placeholderStr ≠ [] := by
        intro hh
        rw [hh] at hlen
        simp at hlen
      rw [goSlice_trim _ hne]
      rfl
  · intro hz
    have hnil : b.placeholderStr = [] := by
      apply List.eq_nil_of_length_eq_zero
      rw [hP, hz, Nat.zero_mul]
    rw [insertLimit, if_pos hlt, hnil]
    rfl

/-- Witness for C10: the freshly initialized single-column builder has an
empty buffer; the trim slice is out of range and `Insert` panics. -/
theorem insert_empty_buffer_guard_witness :
    bulkA.vals.length < PLACEHOLDER_LIMIT ∧ bulkA.rows = 0 ∧
    (((goSlice bulkA.placeholderStr 0 ((bulkA.placeholderStr.length : Int) - 1)).isSome
        ↔ 1 ≤ bulkA.rows) ∧
     (bulkA.rows = 0 →
       insertLimit PLACEHOLDER_LIMIT (okExec Int) () bulkA false
         = ([], InsertResult.panic))) :=
  ⟨by decide, by decide,
   insert_empty_buffer_guard bulkA PLACEHOLDER_LIMIT (okExec Int) () false
     (by decide) (by decide)⟩
